import Mathlib

/-!
Shallow embedding of `cc/concurrent_selfplay.cc` (minigo concurrent selfplay
engine), restricted to the parts exercised by the verified properties:
`SelfplayGame::SelectLeaves`, `SelfplayGame::MaybeQueueInference`,
`SelfplayGame::ProcessInferences`, `SelfplayGame::MaybePlayMove`,
`SelfplayGame::ShouldFastplay`, `SelfplayGame::ShouldResign`,
`SelfplayThread::StartNewGames`, and the inference-cache construction in
`Selfplayer::Run`.

The `MctsTree`, `MctsNode`, `Position` and `InferenceCache` collaborators are
external to this translation unit; they are modelled as an abstract tree-state
type `τ` together with a record `TreeOps τ` of the operations the selfplay
code calls on them, plus a cache lookup function.  Leaves (`MctsNode*`) are
identified by `Nat` ids, cache keys and symmetries are abstract `Nat`
fingerprints, and floating-point quantities (`Q`, scores, thresholds, RNG
draws) are modelled as `Rat`.  Every tree mutation performed by the selfplay
code is additionally recorded in an explicit `Event` trace so that pairing
properties (virtual losses, noise injections) can be stated about execution
histories.
-/

namespace Minigo

/-- `SelfplayGame::Options` (fields as in the source; floats become `Rat`). -/
structure Options where
  num_virtual_losses : Nat
  num_readouts : Nat
  fastplay_readouts : Nat
  fastplay_frequency : Rat
  dirichlet_alpha : Rat
  noise_mix : Rat
  is_holdout : Bool
  target_pruning : Bool
  verbose : Bool
  allow_pass : Bool
  deriving DecidableEq

/-- The subset of `Game::Options` read by this file: `resign_enabled`,
`resign_threshold` and `komi`. -/
structure GameOptions where
  resign_enabled : Bool
  resign_threshold : Rat
  komi : Rat
  deriving DecidableEq

/-- Why a `Game` was marked over (`SetGameOverBecauseOfResign`,
`SetGameOverBecauseMoveLimitReached`, `SetGameOverBecauseOfPasses`). -/
inductive GameOverReason where
  | resign
  | moveLimit
  | passes
  deriving DecidableEq

/-- One entry of the `Game`'s move history.  `Game::AddMove` also records the
color, position snapshot, model comment string, root `Q` and search pi; those
are opaque to the verified properties, so only the coordinate and the
trainable mark (`Game::MarkLastMoveAsTrainable`) are kept. -/
structure GameMove where
  coord : Nat
  trainable : Bool
  deriving DecidableEq

/-- The subset of `Game` state mutated by `SelfplayGame`: the move history and
the game-over flag with its cause. -/
structure GameState where
  moves : List GameMove
  game_over : Bool
  over_reason : Option GameOverReason
  deriving DecidableEq

/-- The `Inference` struct: cache key, requested inference symmetry, the leaf
whose virtual loss must later be reverted, and the position history walked up
from the leaf (`ModelInput`).  The `ModelOutput` written later by the model is
opaque to the verified properties and is not carried. -/
structure Inference where
  cache_key : Nat
  input_sym : Nat
  leaf : Nat
  position_history : List Nat
  deriving DecidableEq

/-- Ghost trace of the operations the selfplay code performs on its `MctsTree`
and `Game`, in execution order. -/
inductive Event where
  | incorporateEndGameResult (leaf : Nat) (value : Int)
  | incorporateResults (leaf : Nat)
  | addVirtualLoss (leaf : Nat)
  | revertVirtualLoss (leaf : Nat)
  | injectNoise
  | pickMove (c : Nat)
  | addMove (c : Nat)
  | reshapeFinalVisits
  | playMove (c : Nat)
  | markLastMoveAsTrainable
  | setGameOverResign
  | setGameOverMoveLimit
  | setGameOverPasses
  | clearSubtrees
  deriving DecidableEq

/-- Abstract interface to the external `MctsTree` / `MctsNode` collaborators
(out of scope of this translation unit).  Leaves are `Nat` ids; `leafScore`
is `leaf->position.CalculateScore(komi)`; `leafInferenceSym` is the value of
`SelfplayGame::GetInferenceSymmetry` (a hash of the position mixed with the
per-game salt, opaque here); `leafCacheKey` abstracts
`InferenceCache::Key(move, canonical_symmetry, position)`. -/
structure TreeOps (τ : Type) where
  selectLeaf : τ → Bool → Option Nat
  isRoot : τ → Nat → Bool
  leafGameOver : τ → Nat → Bool
  leafAtMoveLimit : τ → Nat → Bool
  leafScore : τ → Nat → Rat → Rat
  leafCanonicalSym : τ → Nat → Nat
  leafCacheKey : τ → Nat → Nat
  leafInferenceSym : τ → Nat → Nat
  leafParent : τ → Nat → Option Nat
  rootN : τ → Nat
  rootQ : τ → Rat
  rootQPerspective : τ → Rat
  incorporateEndGameResult : τ → Nat → Int → τ
  incorporateResults : τ → Nat → τ
  addVirtualLoss : τ → Nat → τ
  revertVirtualLoss : τ → Nat → τ
  injectNoise : τ → τ
  pickMove : τ → Nat
  playMove : τ → Nat → τ
  reshapeFinalVisits : τ → τ
  clearSubtrees : τ → τ
  atMoveLimit : τ → Bool
  isGameOver : τ → Bool

/-- Per-game static parameters: the `SelfplayGame::Options`, the `Game`
options, the stream of successive `rnd_()` draws (uniform in `[0,1)`), the
capacity of the `position_history` input buffer, and the `Coord::kResign`
marker value. -/
structure Params where
  options : Options
  gameOpts : GameOptions
  rnd : Nat → Rat
  historyCapacity : Nat
  kResign : Nat

/-- The mutable per-game state of `SelfplayGame`: `target_readouts_`, the
tree, the `Game`, `models_used_`, the two flags, and the position in the
`rnd_` stream. -/
structure SGState (τ : Type) where
  target_readouts : Nat
  tree : τ
  game : GameState
  models_used : List String
  inject_noise_before_next_read : Bool
  fastplay : Bool
  rndIdx : Nat

/-- The `SelfplayGame` constructor state: `target_readouts_ = num_readouts`;
both flags initialized false; no moves, no models used. -/
def initState {τ : Type} (p : Params) (t : τ) : SGState τ where
  target_readouts := p.options.num_readouts
  tree := t
  game := { moves := [], game_over := false, over_reason := none }
  models_used := []
  inject_noise_before_next_read := false
  fastplay := false
  rndIdx := 0

/-- Result of `MaybeQueueInference`: the returned bool, the updated tree, the
inferences appended to the output vector, and the trace. -/
structure QueueResult (τ : Type) where
  queued : Bool
  tree : τ
  inferences : List Inference
  events : List Event

/-- Result of `SelectLeaves`: the updated game state, the returned
`num_queued`, the appended inferences, and the trace. -/
structure SelectResult (τ : Type) where
  state : SGState τ
  numQueued : Nat
  inferences : List Inference
  events : List Event

/-- Result of `MaybePlayMove`: the returned bool, the updated game state and
the trace. -/
structure PlayResult (τ : Type) where
  played : Bool
  state : SGState τ
  events : List Event

/-- The position-history walk in `MaybeQueueInference`: push the node, step to
the parent, stop after `capacity` entries or at a missing parent. -/
def positionHistory {τ : Type} (T : TreeOps τ) (t : τ) : Nat → Nat → List Nat
  | 0, _ => []
  | cap + 1, node =>
    node ::
      (match T.leafParent t node with
       | none => []
       | some parent => positionHistory T t cap parent)

/-- `SelfplayGame::MaybeQueueInference`: look the leaf up in the inference
cache; on a hit incorporate the cached result and return false (no queue, no
virtual loss); on a miss append an `Inference`, add a virtual loss on the
leaf, and return true. -/
def maybeQueueInference {τ : Type} (p : Params) (T : TreeOps τ)
    (tryGet : Nat → Nat → Nat → Bool) (t : τ) (leaf : Nat) : QueueResult τ :=
  let inference_sym := T.leafInferenceSym t leaf
  let cache_key := T.leafCacheKey t leaf
  if tryGet cache_key (T.leafCanonicalSym t leaf) inference_sym then
    { queued := false
      tree := T.incorporateResults t leaf
      inferences := []
      events := [Event.incorporateResults leaf] }
  else
    { queued := true
      tree := T.addVirtualLoss t leaf
      inferences :=
        [{ cache_key := cache_key
           input_sym := inference_sym
           leaf := leaf
           position_history := positionHistory T t p.historyCapacity leaf }]
      events := [Event.addVirtualLoss leaf] }

/-- The do-while loop of `SelfplayGame::SelectLeaves`.  The body runs first;
the condition `num_queued < num_virtual_losses && root->N() < target_readouts`
is checked after each iteration (`continue` in the terminal-leaf case jumps to
the condition).  `fuel` bounds the recursion; exhausting it stops the loop. -/
def selectLeavesLoop {τ : Type} (p : Params) (T : TreeOps τ)
    (tryGet : Nat → Nat → Nat → Bool) :
    Nat → SGState τ → Nat → SelectResult τ
  | 0, st, nq => { state := st, numQueued := nq, inferences := [], events := [] }
  | fuel + 1, st, nq =>
    match T.selectLeaf st.tree p.options.allow_pass with
    | none => { state := st, numQueued := nq, inferences := [], events := [] }
    | some leaf =>
      if T.leafGameOver st.tree leaf || T.leafAtMoveLimit st.tree leaf then
        let value : Int :=
          if 0 < T.leafScore st.tree leaf p.gameOpts.komi then 1 else -1
        let st' := { st with tree := T.incorporateEndGameResult st.tree leaf value }
        let ev := Event.incorporateEndGameResult leaf value
        if nq < p.options.num_virtual_losses ∧ T.rootN st'.tree < st'.target_readouts then
          let r := selectLeavesLoop p T tryGet fuel st' nq
          { state := r.state, numQueued := r.numQueued, inferences := r.inferences,
            events := ev :: r.events }
        else
          { state := st', numQueued := nq, inferences := [], events := [ev] }
      else
        let q := maybeQueueInference p T tryGet st.tree leaf
        let st' := { st with tree := q.tree }
        let nq' := nq + (if q.queued then 1 else 0)
        if T.isRoot st'.tree leaf then
          let st'' :=
            if st'.fastplay = false then
              { st' with inject_noise_before_next_read := true }
            else st'
          { state := st'', numQueued := nq', inferences := q.inferences,
            events := q.events }
        else if nq' < p.options.num_virtual_losses ∧ T.rootN st'.tree < st'.target_readouts then
          let r := selectLeavesLoop p T tryGet fuel st' nq'
          { state := r.state, numQueued := r.numQueued,
            inferences := q.inferences ++ r.inferences,
            events := q.events ++ r.events }
        else
          { state := st', numQueued := nq', inferences := q.inferences,
            events := q.events }

/-- `SelfplayGame::SelectLeaves`: if `inject_noise_before_next_read_` is set,
clear it and inject noise into the root; then run the do-while selection
loop starting from `num_queued = 0`. -/
def selectLeaves {τ : Type} (p : Params) (T : TreeOps τ)
    (tryGet : Nat → Nat → Nat → Bool) (fuel : Nat) (st : SGState τ) :
    SelectResult τ :=
  if st.inject_noise_before_next_read then
    let st' := { st with inject_noise_before_next_read := false,
                         tree := T.injectNoise st.tree }
    let r := selectLeavesLoop p T tryGet fuel st' 0
    { state := r.state, numQueued := r.numQueued, inferences := r.inferences,
      events := Event.injectNoise :: r.events }
  else
    selectLeavesLoop p T tryGet fuel st 0

/-- The loop body of `SelfplayGame::ProcessInferences`: for each inference,
incorporate the results into the leaf and revert its virtual loss. -/
def incorporateAll {τ : Type} (T : TreeOps τ) :
    List Inference → τ → τ × List Event
  | [], t => (t, [])
  | inf :: rest, t =>
    let t1 := T.incorporateResults t inf.leaf
    let t2 := T.revertVirtualLoss t1 inf.leaf
    let r := incorporateAll T rest t2
    (r.1, Event.incorporateResults inf.leaf :: Event.revertVirtualLoss inf.leaf :: r.2)

/-- `SelfplayGame::ProcessInferences`: record a non-empty `model_name` unless
it equals the current back of `models_used_`, then incorporate every
inference and revert its virtual loss. -/
def processInferences {τ : Type} (T : TreeOps τ) (model_name : String)
    (inferences : List Inference) (st : SGState τ) : SGState τ × List Event :=
  let models_used :=
    if model_name = "" then st.models_used
    else
      match st.models_used.getLast? with
      | none => st.models_used ++ [model_name]
      | some back =>
        if model_name = back then st.models_used
        else st.models_used ++ [model_name]
  let r := incorporateAll T inferences st.tree
  ({ st with models_used := models_used, tree := r.1 }, r.2)

/-- `SelfplayGame::ShouldFastplay`: `fastplay_frequency > 0 && rnd_() <
fastplay_frequency`; the `&&` short-circuits, so `rnd_` is consumed only when
the frequency is positive.  Returns the sample and the new stream index. -/
def shouldFastplay (p : Params) (rndIdx : Nat) : Bool × Nat :=
  if 0 < p.options.fastplay_frequency then
    (decide (p.rnd rndIdx < p.options.fastplay_frequency), rndIdx + 1)
  else
    (false, rndIdx)

/-- `SelfplayGame::ShouldResign`: resignation is enabled and the root `Q`
from the side to move is below the resign threshold. -/
def shouldResign {τ : Type} (p : Params) (T : TreeOps τ) (st : SGState τ) : Bool :=
  p.gameOpts.resign_enabled &&
    decide (T.rootQPerspective st.tree < p.gameOpts.resign_threshold)

/-- `Game::MarkLastMoveAsTrainable` on the modelled move history. -/
def setLastTrainable : List GameMove → List GameMove
  | [] => []
  | [m] => [{ m with trainable := true }]
  | m :: m' :: rest => m :: setLastTrainable (m' :: rest)

/-- The resignation-or-play block of `SelfplayGame::MaybePlayMove` (the code
between the readout check and the `game_over` check): either mark the game
over by resignation of the side to move, or pick a move, append it to the
game, optionally reshape final visits, play it on the tree, optionally mark
it trainable, and detect move-limit or two-pass game over. -/
def resignOrPlay {τ : Type} (p : Params) (T : TreeOps τ) (st : SGState τ) :
    SGState τ × List Event :=
  if shouldResign p T st then
    let g : GameState :=
      { st.game with game_over := true, over_reason := some GameOverReason.resign }
    ({ st with game := g }, [Event.setGameOverResign])
  else
    let c := T.pickMove st.tree
    let g1 : GameState :=
      { st.game with moves := st.game.moves ++ [{ coord := c, trainable := false }] }
    let t1 :=
      if p.options.target_pruning && !st.fastplay then
        T.reshapeFinalVisits st.tree
      else st.tree
    let t2 := T.playMove t1 c
    let g2 :=
      if c ≠ p.kResign ∧ st.fastplay = false then
        { g1 with moves := setLastTrainable g1.moves }
      else g1
    let g3 :=
      if T.atMoveLimit t2 then
        { g2 with game_over := true, over_reason := some GameOverReason.moveLimit }
      else if T.isGameOver t2 then
        { g2 with game_over := true, over_reason := some GameOverReason.passes }
      else g2
    let evs :=
      [Event.pickMove c, Event.addMove c] ++
      (if p.options.target_pruning && !st.fastplay then [Event.reshapeFinalVisits] else []) ++
      [Event.playMove c] ++
      (if c ≠ p.kResign ∧ st.fastplay = false then [Event.markLastMoveAsTrainable] else []) ++
      (if T.atMoveLimit t2 then [Event.setGameOverMoveLimit]
       else if T.isGameOver t2 then [Event.setGameOverPasses] else [])
    ({ st with game := g3, tree := t2 }, evs)

/-- `SelfplayGame::MaybePlayMove`.  Returns false immediately when
`root->N() < target_readouts_`.  Otherwise runs `resignOrPlay`; then, if the
game is still live, re-samples `fastplay_`, arms the noise flag iff the next
move is not a fast play, resets the read watermark from the new root's visit
count, and clears subtrees on non-fast moves when playout-cap oscillation is
enabled. -/
def maybePlayMove {τ : Type} (p : Params) (T : TreeOps τ) (st : SGState τ) :
    PlayResult τ :=
  if T.rootN st.tree < st.target_readouts then
    { played := false, state := st, events := [] }
  else
    let st1 := (resignOrPlay p T st).1
    if st1.game.game_over = false then
      let fp := shouldFastplay p st1.rndIdx
      let num_readouts :=
        if fp.1 then p.options.fastplay_readouts else p.options.num_readouts
      let cleared_tree :=
        if fp.1 = false ∧ 0 < p.options.fastplay_frequency then
          T.clearSubtrees st1.tree
        else st1.tree
      let cleared_events :=
        if fp.1 = false ∧ 0 < p.options.fastplay_frequency then
          [Event.clearSubtrees]
        else ([] : List Event)
      { played := true
        state :=
          { st1 with fastplay := fp.1,
                     inject_noise_before_next_read := !fp.1,
                     target_readouts := T.rootN st1.tree + num_readouts,
                     tree := cleared_tree,
                     rndIdx := fp.2 }
        events := (resignOrPlay p T st).2 ++ cleared_events }
    else
      { played := true, state := st1, events := (resignOrPlay p T st).2 }

/-- One phase of the `SelfplayThread::Run` cycle as seen by a single game:
a `SelectLeaves` call (with a fuel bound for the selection loop), a
`ProcessInferences` call, or a `MaybePlayMove` call. -/
inductive Step where
  | select (fuel : Nat)
  | process (model_name : String) (inferences : List Inference)
  | play
  deriving DecidableEq

/-- Run one phase on a game state, returning the new state and the trace. -/
def runStep {τ : Type} (p : Params) (T : TreeOps τ)
    (tryGet : Nat → Nat → Nat → Bool) (st : SGState τ) :
    Step → SGState τ × List Event
  | Step.select fuel =>
    let r := selectLeaves p T tryGet fuel st
    (r.state, r.events)
  | Step.process name infs => processInferences T name infs st
  | Step.play =>
    let r := maybePlayMove p T st
    (r.state, r.events)

/-- Run a sequence of phases, concatenating the traces. -/
def runSteps {τ : Type} (p : Params) (T : TreeOps τ)
    (tryGet : Nat → Nat → Nat → Bool) :
    List Step → SGState τ → SGState τ × List Event
  | [], st => (st, [])
  | s :: rest, st =>
    let r1 := runStep p T tryGet st s
    let r2 := runSteps p T tryGet rest r1.1
    (r2.1, r1.2 ++ r2.2)

/-- The leaves of the `addVirtualLoss` events of a trace, in order. -/
def vlossLeaves (evs : List Event) : List Nat :=
  evs.filterMap fun e =>
    match e with
    | Event.addVirtualLoss l => some l
    | _ => none

/-- The leaves of the `revertVirtualLoss` events of a trace, in order. -/
def revertLeaves (evs : List Event) : List Nat :=
  evs.filterMap fun e =>
    match e with
    | Event.revertVirtualLoss l => some l
    | _ => none

/-- Whether an event is a noise injection. -/
def isInjectEv : Event → Bool
  | Event.injectNoise => true
  | _ => false

/-- Number of noise injections in a trace. -/
def countInject (evs : List Event) : Nat := evs.countP isInjectEv

/-- The loop of `SelfplayThread::StartNewGames` over the `selfplay_games_`
array (slots are `Option γ`, `none` marking a null slot).  Each null slot asks
the orchestrator for a new game (`supply k`; `k` counts `StartNewGame` calls):
on success the slot is refilled and the loop advances; on failure the last
element is moved into the slot, the back is popped, and the index is not
advanced so the moved-in element is re-examined. -/
def startNewGamesLoop {γ : Type} (supply : Nat → Option γ) (k : Nat)
    (games : List (Option γ)) (i : Nat) : List (Option γ) :=
  if h : i < games.length then
    match games.get ⟨i, h⟩ with
    | some _ => startNewGamesLoop supply k games (i + 1)
    | none =>
      match supply k with
      | some g => startNewGamesLoop supply (k + 1) (games.set i (some g)) (i + 1)
      | none =>
        startNewGamesLoop supply (k + 1)
          ((games.set i (games.getLast?.getD none)).dropLast) i
  else games
termination_by games.length - i
decreasing_by
all_goals simp [List.length_set, List.length_dropLast]
all_goals omega

/-- `SelfplayThread::StartNewGames` starts scanning at slot 0. -/
def startNewGames {γ : Type} (supply : Nat → Option γ)
    (games : List (Option γ)) : List (Option γ) :=
  startNewGamesLoop supply 0 games 0

/-- The inference cache variants built by `Selfplayer::Run`. -/
inductive InferenceCacheKind where
  | threadSafe (capacity : Nat) (num_shards : Nat)
  | null
  deriving DecidableEq

/-- The cache construction at the top of `Selfplayer::Run`: when
`cache_size_mb > 0`, build a `ThreadSafeInferenceCache` with the capacity
computed from the megabyte budget and `FLAGS_cache_shards` ways of sharding;
otherwise build a `NullInferenceCache`.  `calculateCapacity` abstracts
`BasicInferenceCache::CalculateCapacity`. -/
def makeInferenceCache (calculateCapacity : Nat → Nat)
    (cache_size_mb : Nat) (cache_shards : Nat) : InferenceCacheKind :=
  if 0 < cache_size_mb then
    InferenceCacheKind.threadSafe (calculateCapacity cache_size_mb) cache_shards
  else
    InferenceCacheKind.null

/-- Number of shards of a constructed cache (0 for the null cache). -/
def cacheShardCount : InferenceCacheKind → Nat
  | InferenceCacheKind.threadSafe _ s => s
  | InferenceCacheKind.null => 0

/-- The total number of parallel games of the claim:
`concurrent_games_per_thread * selfplay_threads`. -/
def parallelGamesTotal (concurrent_games_per_thread selfplay_threads : Nat) : Nat :=
  concurrent_games_per_thread * selfplay_threads

/-- A minimal concrete tree oracle over trivial tree state, used to evaluate
the embedding at concrete inputs: one non-terminal, non-root leaf `0` is
always selectable, the root has 5 visits, all mutations are no-ops. -/
def flatTree : TreeOps Unit where
  selectLeaf := fun _ _ => some 0
  isRoot := fun _ _ => false
  leafGameOver := fun _ _ => false
  leafAtMoveLimit := fun _ _ => false
  leafScore := fun _ _ _ => 0
  leafCanonicalSym := fun _ _ => 0
  leafCacheKey := fun _ _ => 7
  leafInferenceSym := fun _ _ => 3
  leafParent := fun _ _ => none
  rootN := fun _ => 5
  rootQ := fun _ => 0
  rootQPerspective := fun _ => 0
  incorporateEndGameResult := fun t _ _ => t
  incorporateResults := fun t _ => t
  addVirtualLoss := fun t _ => t
  revertVirtualLoss := fun t _ => t
  injectNoise := fun t => t
  pickMove := fun _ => 3
  playMove := fun t _ => t
  reshapeFinalVisits := fun t => t
  clearSubtrees := fun t => t
  atMoveLimit := fun _ => false
  isGameOver := fun _ => false

/-- Like `flatTree` but the selected leaf is the root (a freshly expanded
root position). -/
def rootTree : TreeOps Unit :=
  { flatTree with isRoot := fun _ _ => true, rootN := fun _ => 0 }

/-- Like `flatTree` but the root `Q` from the side to move is -2 (a lost
position, triggering resignation when enabled). -/
def lostTree : TreeOps Unit :=
  { flatTree with rootQPerspective := fun _ => -2 }

/-- A cache in which every lookup misses. -/
def missCache : Nat → Nat → Nat → Bool := fun _ _ _ => false

/-- Concrete parameters with the source's default flag values (resignation
disabled, no playout-cap oscillation). -/
def baseParams : Params where
  options :=
    { num_virtual_losses := 8
      num_readouts := 5
      fastplay_readouts := 2
      fastplay_frequency := 0
      dirichlet_alpha := 3 / 100
      noise_mix := 1 / 4
      is_holdout := false
      target_pruning := false
      verbose := false
      allow_pass := true }
  gameOpts :=
    { resign_enabled := false
      resign_threshold := -(999 / 1000)
      komi := 15 / 2 }
  rnd := fun _ => 0
  historyCapacity := 2
  kResign := 100

/-- `baseParams` with playout-cap oscillation on every move
(`fastplay_frequency = 1`). -/
def oscParams : Params :=
  { baseParams with options := { baseParams.options with fastplay_frequency := 1 } }

/-- `baseParams` with resignation enabled (threshold -1, kept division-free
so that concrete evaluations reduce in the kernel). -/
def resignParams : Params :=
  { baseParams with
    gameOpts := { resign_enabled := true, resign_threshold := -1, komi := 7 } }

/-- A concrete game state whose read budget is already met
(`root.N() = 5 = target_readouts`). -/
def metState : SGState Unit := initState baseParams ()

/-- A concrete game state still short of its read budget
(`root.N() = 5 < 6 = target_readouts`). -/
def shortState : SGState Unit := { metState with target_readouts := 6 }

/-- A concrete game state with two models recorded, the noise flag armed and
fast play off. -/
def twoModelState : SGState Unit :=
  { metState with models_used := ["modA", "modB"],
                  inject_noise_before_next_read := true }

/-- A concrete game state currently searching a fast-play move. -/
def fastState : SGState Unit := { metState with fastplay := true }

/-- The components of a `SelfplayGame` state that the leaf-selection loop
never writes (everything except the tree and the noise flag). -/
def sgShadow {τ : Type} (st : SGState τ) : Nat × GameState × List String × Bool × Nat :=
  (st.target_readouts, st.game, st.models_used, st.fastplay, st.rndIdx)

theorem maybeQueueInference_vloss {τ : Type} (p : Params) (T : TreeOps τ)
    (tryGet : Nat → Nat → Nat → Bool) (t : τ) (leaf : Nat) :
    vlossLeaves (maybeQueueInference p T tryGet t leaf).events =
      (maybeQueueInference p T tryGet t leaf).inferences.map Inference.leaf ∧
    revertLeaves (maybeQueueInference p T tryGet t leaf).events = [] ∧
    countInject (maybeQueueInference p T tryGet t leaf).events = 0 := by
  rw [maybeQueueInference]
  split <;> simp [vlossLeaves, revertLeaves, countInject, isInjectEv]

theorem countInject_nil : countInject [] = 0 := rfl

theorem vlossLeaves_nil : vlossLeaves [] = [] := rfl

theorem revertLeaves_nil : revertLeaves [] = [] := rfl

theorem countInject_cons (e : Event) (evs : List Event) :
    countInject (e :: evs) = countInject evs + (if isInjectEv e then 1 else 0) := by
  simp [countInject, List.countP_cons]

theorem countInject_append (a b : List Event) :
    countInject (a ++ b) = countInject a + countInject b := by
  simp [countInject, List.countP_append]

theorem vlossLeaves_cons_end (l : Nat) (v : Int) (evs : List Event) :
    vlossLeaves (Event.incorporateEndGameResult l v :: evs) = vlossLeaves evs := by
  simp [vlossLeaves]

theorem revertLeaves_cons_end (l : Nat) (v : Int) (evs : List Event) :
    revertLeaves (Event.incorporateEndGameResult l v :: evs) = revertLeaves evs := by
  simp [revertLeaves]

theorem revertLeaves_cons_incres (l : Nat) (evs : List Event) :
    revertLeaves (Event.incorporateResults l :: evs) = revertLeaves evs := by
  simp [revertLeaves]

theorem revertLeaves_cons_revert (l : Nat) (evs : List Event) :
    revertLeaves (Event.revertVirtualLoss l :: evs) = l :: revertLeaves evs := by
  simp [revertLeaves]

theorem vlossLeaves_cons_incres (l : Nat) (evs : List Event) :
    vlossLeaves (Event.incorporateResults l :: evs) = vlossLeaves evs := by
  simp [vlossLeaves]

theorem vlossLeaves_cons_revert (l : Nat) (evs : List Event) :
    vlossLeaves (Event.revertVirtualLoss l :: evs) = vlossLeaves evs := by
  simp [vlossLeaves]

theorem vlossLeaves_append (a b : List Event) :
    vlossLeaves (a ++ b) = vlossLeaves a ++ vlossLeaves b := by
  simp [vlossLeaves]

theorem revertLeaves_append (a b : List Event) :
    revertLeaves (a ++ b) = revertLeaves a ++ revertLeaves b := by
  simp [revertLeaves]

theorem selectLeavesLoop_shadow {τ : Type} (p : Params) (T : TreeOps τ)
    (tryGet : Nat → Nat → Nat → Bool) (fuel : Nat) (st : SGState τ) (nq : Nat) :
    sgShadow (selectLeavesLoop p T tryGet fuel st nq).state = sgShadow st := by
  induction fuel generalizing st nq with
  | zero => rw [selectLeavesLoop]
  | succ n ih =>
    rw [selectLeavesLoop]
    cases hsel : T.selectLeaf st.tree p.options.allow_pass with
    | none => rfl
    | some leaf =>
      simp only
      repeat' split
      all_goals first | rfl | exact ih _ _

theorem selectLeavesLoop_countInject {τ : Type} (p : Params) (T : TreeOps τ)
    (tryGet : Nat → Nat → Nat → Bool) (fuel : Nat) (st : SGState τ) (nq : Nat) :
    countInject (selectLeavesLoop p T tryGet fuel st nq).events = 0 := by
  induction fuel generalizing st nq with
  | zero => rfl
  | succ n ih =>
    rw [selectLeavesLoop]
    cases hsel : T.selectLeaf st.tree p.options.allow_pass with
    | none => rfl
    | some leaf =>
      simp only
      repeat' split
      all_goals
        simp [countInject_nil, countInject_cons, countInject_append, isInjectEv, ih,
              (maybeQueueInference_vloss p T tryGet st.tree leaf).2.2]

theorem selectLeavesLoop_vloss {τ : Type} (p : Params) (T : TreeOps τ)
    (tryGet : Nat → Nat → Nat → Bool) (fuel : Nat) (st : SGState τ) (nq : Nat) :
    vlossLeaves (selectLeavesLoop p T tryGet fuel st nq).events =
      (selectLeavesLoop p T tryGet fuel st nq).inferences.map Inference.leaf := by
  induction fuel generalizing st nq with
  | zero => rfl
  | succ n ih =>
    rw [selectLeavesLoop]
    cases hsel : T.selectLeaf st.tree p.options.allow_pass with
    | none => rfl
    | some leaf =>
      simp only
      repeat' split
      all_goals
        simp [vlossLeaves_nil, vlossLeaves_cons_end, vlossLeaves_append, ih,
              (maybeQueueInference_vloss p T tryGet st.tree leaf).1]

theorem selectLeavesLoop_revert {τ : Type} (p : Params) (T : TreeOps τ)
    (tryGet : Nat → Nat → Nat → Bool) (fuel : Nat) (st : SGState τ) (nq : Nat) :
    revertLeaves (selectLeavesLoop p T tryGet fuel st nq).events = [] := by
  induction fuel generalizing st nq with
  | zero => rfl
  | succ n ih =>
    rw [selectLeavesLoop]
    cases hsel : T.selectLeaf st.tree p.options.allow_pass with
    | none => rfl
    | some leaf =>
      simp only
      repeat' split
      all_goals
        simp [revertLeaves_nil, revertLeaves_cons_end, revertLeaves_append, ih,
              (maybeQueueInference_vloss p T tryGet st.tree leaf).2.1]

theorem selectLeavesLoop_inject_noRoot {τ : Type} (p : Params) (T : TreeOps τ)
    (tryGet : Nat → Nat → Nat → Bool) (hroot : ∀ t l, T.isRoot t l = false)
    (fuel : Nat) (st : SGState τ) (nq : Nat) :
    (selectLeavesLoop p T tryGet fuel st nq).state.inject_noise_before_next_read =
      st.inject_noise_before_next_read := by
  induction fuel generalizing st nq with
  | zero => rfl
  | succ n ih =>
    rw [selectLeavesLoop]
    cases hsel : T.selectLeaf st.tree p.options.allow_pass with
    | none => rfl
    | some leaf =>
      simp only
      repeat' split
      all_goals first | rfl | exact ih _ _ | simp_all [hroot]

theorem selectLeavesLoop_inject_fastplay {τ : Type} (p : Params) (T : TreeOps τ)
    (tryGet : Nat → Nat → Nat → Bool) (fuel : Nat) (st : SGState τ) (nq : Nat)
    (hfp : st.fastplay = true) :
    (selectLeavesLoop p T tryGet fuel st nq).state.inject_noise_before_next_read =
      st.inject_noise_before_next_read := by
  induction fuel generalizing st nq with
  | zero => rfl
  | succ n ih =>
    rw [selectLeavesLoop]
    cases hsel : T.selectLeaf st.tree p.options.allow_pass with
    | none => rfl
    | some leaf =>
      simp only
      repeat' split
      all_goals first | rfl | exact ih _ _ hfp | simp_all

theorem maybeQueueInference_rootN_le {τ : Type} (p : Params) (T : TreeOps τ)
    (tryGet : Nat → Nat → Nat → Bool)
    (hres : ∀ t l, T.rootN t ≤ T.rootN (T.incorporateResults t l))
    (hvl : ∀ t l, T.rootN t ≤ T.rootN (T.addVirtualLoss t l))
    (t : τ) (leaf : Nat) :
    T.rootN t ≤ T.rootN (maybeQueueInference p T tryGet t leaf).tree := by
  rw [maybeQueueInference]
  split
  · exact hres t leaf
  · exact hvl t leaf

theorem selectLeavesLoop_numQueued_le {τ : Type} (p : Params) (T : TreeOps τ)
    (tryGet : Nat → Nat → Nat → Bool)
    (hend : ∀ t l v, T.rootN t ≤ T.rootN (T.incorporateEndGameResult t l v))
    (hres : ∀ t l, T.rootN t ≤ T.rootN (T.incorporateResults t l))
    (hvl : ∀ t l, T.rootN t ≤ T.rootN (T.addVirtualLoss t l))
    (fuel : Nat) (st : SGState τ) (nq : Nat)
    (htar : st.target_readouts ≤ T.rootN st.tree) :
    (selectLeavesLoop p T tryGet fuel st nq).numQueued ≤ nq + 1 := by
  cases fuel with
  | zero => exact Nat.le_succ nq
  | succ n =>
    rw [selectLeavesLoop]
    cases hsel : T.selectLeaf st.tree p.options.allow_pass with
    | none => exact Nat.le_succ nq
    | some leaf =>
      simp only
      repeat' split
      all_goals
        first
          | exact Nat.le_succ nq
          | exact Nat.le_refl (nq + 1)
          | (rename_i hcond
             exact absurd hcond.2 (Nat.not_lt.mpr (le_trans htar (hend st.tree leaf _))))
          | (rename_i hcond
             exact absurd hcond.2 (Nat.not_lt.mpr
               (le_trans htar (maybeQueueInference_rootN_le p T tryGet hres hvl st.tree leaf))))

theorem selectLeaves_shadow {τ : Type} (p : Params) (T : TreeOps τ)
    (tryGet : Nat → Nat → Nat → Bool) (fuel : Nat) (st : SGState τ) :
    sgShadow (selectLeaves p T tryGet fuel st).state = sgShadow st := by
  rw [selectLeaves]
  split
  · exact selectLeavesLoop_shadow p T tryGet fuel _ 0
  · exact selectLeavesLoop_shadow p T tryGet fuel st 0

theorem selectLeaves_fastplay {τ : Type} (p : Params) (T : TreeOps τ)
    (tryGet : Nat → Nat → Nat → Bool) (fuel : Nat) (st : SGState τ) :
    (selectLeaves p T tryGet fuel st).state.fastplay = st.fastplay :=
  congrArg (fun x => x.2.2.2.1) (selectLeaves_shadow p T tryGet fuel st)

theorem selectLeaves_countInject {τ : Type} (p : Params) (T : TreeOps τ)
    (tryGet : Nat → Nat → Nat → Bool) (fuel : Nat) (st : SGState τ) :
    countInject (selectLeaves p T tryGet fuel st).events =
      (if st.inject_noise_before_next_read then 1 else 0) := by
  rw [selectLeaves]
  split
  · rename_i h
    simp [h, countInject_cons, isInjectEv, selectLeavesLoop_countInject]
  · rename_i h
    simp [Bool.not_eq_true _ |>.mp h, selectLeavesLoop_countInject]

theorem selectLeaves_inject_noRoot {τ : Type} (p : Params) (T : TreeOps τ)
    (tryGet : Nat → Nat → Nat → Bool) (hroot : ∀ t l, T.isRoot t l = false)
    (fuel : Nat) (st : SGState τ) :
    (selectLeaves p T tryGet fuel st).state.inject_noise_before_next_read = false := by
  rw [selectLeaves]
  split
  · exact selectLeavesLoop_inject_noRoot p T tryGet hroot fuel _ 0
  · rename_i h
    rw [selectLeavesLoop_inject_noRoot p T tryGet hroot fuel st 0]
    exact Bool.not_eq_true _ |>.mp h

theorem selectLeaves_inject_fastplay {τ : Type} (p : Params) (T : TreeOps τ)
    (tryGet : Nat → Nat → Nat → Bool) (fuel : Nat) (st : SGState τ)
    (hfp : st.fastplay = true)
    (hinj : st.inject_noise_before_next_read = false) :
    (selectLeaves p T tryGet fuel st).state.inject_noise_before_next_read = false := by
  rw [selectLeaves]
  rw [if_neg (by rw [hinj]; exact Bool.false_ne_true)]
  rw [selectLeavesLoop_inject_fastplay p T tryGet fuel st 0 hfp]
  exact hinj

theorem selectLeaves_vloss {τ : Type} (p : Params) (T : TreeOps τ)
    (tryGet : Nat → Nat → Nat → Bool) (fuel : Nat) (st : SGState τ) :
    vlossLeaves (selectLeaves p T tryGet fuel st).events =
      (selectLeaves p T tryGet fuel st).inferences.map Inference.leaf ∧
    revertLeaves (selectLeaves p T tryGet fuel st).events = [] := by
  rw [selectLeaves]
  split
  · constructor
    · simpa [vlossLeaves] using selectLeavesLoop_vloss p T tryGet fuel _ 0
    · simpa [revertLeaves] using selectLeavesLoop_revert p T tryGet fuel _ 0
  · exact ⟨selectLeavesLoop_vloss p T tryGet fuel st 0,
           selectLeavesLoop_revert p T tryGet fuel st 0⟩

theorem incorporateAll_revert {τ : Type} (T : TreeOps τ) (infs : List Inference) (t : τ) :
    revertLeaves (incorporateAll T infs t).2 = infs.map Inference.leaf := by
  induction infs generalizing t with
  | nil => rfl
  | cons inf rest ih =>
    simp [incorporateAll, revertLeaves_cons_incres, revertLeaves_cons_revert, ih]

theorem incorporateAll_vloss {τ : Type} (T : TreeOps τ) (infs : List Inference) (t : τ) :
    vlossLeaves (incorporateAll T infs t).2 = [] := by
  induction infs generalizing t with
  | nil => rfl
  | cons inf rest ih =>
    simp [incorporateAll, vlossLeaves_cons_incres, vlossLeaves_cons_revert, ih]

theorem incorporateAll_countInject {τ : Type} (T : TreeOps τ) (infs : List Inference) (t : τ) :
    countInject (incorporateAll T infs t).2 = 0 := by
  induction infs generalizing t with
  | nil => rfl
  | cons inf rest ih => simp [incorporateAll, countInject_cons, isInjectEv, ih]

theorem processInferences_events {τ : Type} (T : TreeOps τ) (name : String)
    (infs : List Inference) (st : SGState τ) :
    revertLeaves (processInferences T name infs st).2 = infs.map Inference.leaf ∧
    vlossLeaves (processInferences T name infs st).2 = [] ∧
    countInject (processInferences T name infs st).2 = 0 := by
  refine ⟨?_, ?_, ?_⟩ <;>
    simp [processInferences, incorporateAll_revert, incorporateAll_vloss,
          incorporateAll_countInject]

theorem processInferences_state {τ : Type} (T : TreeOps τ) (name : String)
    (infs : List Inference) (st : SGState τ) :
    (processInferences T name infs st).1.inject_noise_before_next_read =
        st.inject_noise_before_next_read ∧
    (processInferences T name infs st).1.fastplay = st.fastplay ∧
    (processInferences T name infs st).1.target_readouts = st.target_readouts ∧
    (processInferences T name infs st).1.game = st.game ∧
    (processInferences T name infs st).1.rndIdx = st.rndIdx :=
  ⟨rfl, rfl, rfl, rfl, rfl⟩

theorem resignOrPlay_shadow {τ : Type} (p : Params) (T : TreeOps τ) (st : SGState τ) :
    (resignOrPlay p T st).1.rndIdx = st.rndIdx ∧
    (resignOrPlay p T st).1.fastplay = st.fastplay ∧
    (resignOrPlay p T st).1.inject_noise_before_next_read =
      st.inject_noise_before_next_read ∧
    (resignOrPlay p T st).1.target_readouts = st.target_readouts ∧
    (resignOrPlay p T st).1.models_used = st.models_used := by
  rw [resignOrPlay]
  split <;> exact ⟨rfl, rfl, rfl, rfl, rfl⟩

theorem resignOrPlay_of_resign {τ : Type} (p : Params) (T : TreeOps τ) (st : SGState τ)
    (h : shouldResign p T st = true) :
    (resignOrPlay p T st).1 = { st with game := { st.game with game_over := true, over_reason := some GameOverReason.resign } } ∧
    (resignOrPlay p T st).2 = [Event.setGameOverResign] := by
  rw [resignOrPlay]
  rw [if_pos h]
  exact ⟨rfl, rfl⟩

theorem maybePlayMove_not_fired {τ : Type} (p : Params) (T : TreeOps τ) (st : SGState τ)
    (h : T.rootN st.tree < st.target_readouts) :
    maybePlayMove p T st = { played := false, state := st, events := [] } := by
  rw [maybePlayMove]
  rw [if_pos h]

theorem maybePlayMove_live {τ : Type} (p : Params) (T : TreeOps τ) (st : SGState τ)
    (hN : ¬ T.rootN st.tree < st.target_readouts)
    (hover : (maybePlayMove p T st).state.game.game_over = false) :
    (maybePlayMove p T st).played = true ∧
    (maybePlayMove p T st).state =
      { (resignOrPlay p T st).1 with
        fastplay := (shouldFastplay p (resignOrPlay p T st).1.rndIdx).1,
        inject_noise_before_next_read := !(shouldFastplay p (resignOrPlay p T st).1.rndIdx).1,
        target_readouts := T.rootN (resignOrPlay p T st).1.tree + (if (shouldFastplay p (resignOrPlay p T st).1.rndIdx).1 then p.options.fastplay_readouts else p.options.num_readouts),
        tree := (if (shouldFastplay p (resignOrPlay p T st).1.rndIdx).1 = false ∧ 0 < p.options.fastplay_frequency then T.clearSubtrees (resignOrPlay p T st).1.tree else (resignOrPlay p T st).1.tree),
        rndIdx := (shouldFastplay p (resignOrPlay p T st).1.rndIdx).2 } := by
  rw [maybePlayMove] at hover ⊢
  rw [if_neg hN] at hover ⊢
  by_cases hg : (resignOrPlay p T st).1.game.game_over = false
  · rw [if_pos hg]
    exact ⟨rfl, rfl⟩
  · rw [if_neg hg] at hover
    exact absurd hover hg

theorem maybePlayMove_fastplay_freqzero {τ : Type} (p : Params) (T : TreeOps τ)
    (st : SGState τ) (hfreq : ¬ 0 < p.options.fastplay_frequency)
    (hfp : st.fastplay = false) :
    (maybePlayMove p T st).state.fastplay = false := by
  rw [maybePlayMove]
  split
  · exact hfp
  · by_cases hg : (resignOrPlay p T st).1.game.game_over = false
    · rw [if_pos hg]
      show (shouldFastplay p (resignOrPlay p T st).1.rndIdx).1 = false
      simp [shouldFastplay, hfreq]
    · rw [if_neg hg]
      show (resignOrPlay p T st).1.fastplay = false
      rw [(resignOrPlay_shadow p T st).2.1]
      exact hfp

theorem runStep_inject_bound {τ : Type} (p : Params) (T : TreeOps τ)
    (tryGet : Nat → Nat → Nat → Bool) (hroot : ∀ t l, T.isRoot t l = false)
    (st : SGState τ) (s : Step) (hs : s ≠ Step.play) :
    countInject (runStep p T tryGet st s).2 +
        (if (runStep p T tryGet st s).1.inject_noise_before_next_read then 1 else 0) ≤
      (if st.inject_noise_before_next_read then 1 else 0) := by
  cases s with
  | select fuel =>
    have h1 := selectLeaves_countInject p T tryGet fuel st
    have h2 := selectLeaves_inject_noRoot p T tryGet hroot fuel st
    simp only [runStep, h1, h2]
    split <;> simp
  | process name infs =>
    have h1 := (processInferences_events T name infs st).2.2
    have h2 := (processInferences_state T name infs st).1
    simp only [runStep, h1, h2]
    omega
  | play => exact absurd rfl hs

theorem runSteps_inject_bound {τ : Type} (p : Params) (T : TreeOps τ)
    (tryGet : Nat → Nat → Nat → Bool) (hroot : ∀ t l, T.isRoot t l = false)
    (steps : List Step) (st : SGState τ) (hnp : ∀ s ∈ steps, s ≠ Step.play) :
    countInject (runSteps p T tryGet steps st).2 +
        (if (runSteps p T tryGet steps st).1.inject_noise_before_next_read then 1 else 0) ≤
      (if st.inject_noise_before_next_read then 1 else 0) := by
  induction steps generalizing st with
  | nil => simp [runSteps, countInject_nil]
  | cons s rest ih =>
    have h1 := runStep_inject_bound p T tryGet hroot st s (hnp s (List.mem_cons_self s rest))
    have h2 := ih (runStep p T tryGet st s).1 (fun x hx => hnp x (List.mem_cons_of_mem s hx))
    simp only [runSteps, countInject_append]
    omega

theorem runSteps_fastplay_inject {τ : Type} (p : Params) (T : TreeOps τ)
    (tryGet : Nat → Nat → Nat → Bool) (steps : List Step) (st : SGState τ)
    (hnp : ∀ s ∈ steps, s ≠ Step.play)
    (hfp : st.fastplay = true) (hinj : st.inject_noise_before_next_read = false) :
    (runSteps p T tryGet steps st).1.fastplay = true ∧
    (runSteps p T tryGet steps st).1.inject_noise_before_next_read = false ∧
    countInject (runSteps p T tryGet steps st).2 = 0 := by
  induction steps generalizing st with
  | nil => exact ⟨hfp, hinj, rfl⟩
  | cons s rest ih =>
    have hstep :
        (runStep p T tryGet st s).1.fastplay = true ∧
        (runStep p T tryGet st s).1.inject_noise_before_next_read = false ∧
        countInject (runStep p T tryGet st s).2 = 0 := by
      cases s with
      | select fuel =>
        refine ⟨?_, ?_, ?_⟩
        · rw [show (runStep p T tryGet st (Step.select fuel)).1 =
                (selectLeaves p T tryGet fuel st).state from rfl]
          rw [selectLeaves_fastplay]
          exact hfp
        · exact selectLeaves_inject_fastplay p T tryGet fuel st hfp hinj
        · rw [show (runStep p T tryGet st (Step.select fuel)).2 =
                (selectLeaves p T tryGet fuel st).events from rfl]
          rw [selectLeaves_countInject]
          simp [hinj]
      | process name infs =>
        refine ⟨?_, ?_, ?_⟩
        · rw [show (runStep p T tryGet st (Step.process name infs)).1 =
                (processInferences T name infs st).1 from rfl]
          rw [(processInferences_state T name infs st).2.1]
          exact hfp
        · rw [show (runStep p T tryGet st (Step.process name infs)).1 =
                (processInferences T name infs st).1 from rfl]
          rw [(processInferences_state T name infs st).1]
          exact hinj
        · exact (processInferences_events T name infs st).2.2
      | play => exact absurd rfl (hnp Step.play (List.mem_cons_self _ rest))
    have hrest := ih (runStep p T tryGet st s).1
      (fun x hx => hnp x (List.mem_cons_of_mem s hx)) hstep.1 hstep.2.1
    refine ⟨hrest.1, hrest.2.1, ?_⟩
    simp only [runSteps, countInject_append]
    omega

theorem runSteps_fastplay_freqzero {τ : Type} (p : Params) (T : TreeOps τ)
    (tryGet : Nat → Nat → Nat → Bool) (hfreq : ¬ 0 < p.options.fastplay_frequency)
    (steps : List Step) (st : SGState τ) (hfp : st.fastplay = false) :
    (runSteps p T tryGet steps st).1.fastplay = false := by
  induction steps generalizing st with
  | nil => exact hfp
  | cons s rest ih =>
    have hstep : (runStep p T tryGet st s).1.fastplay = false := by
      cases s with
      | select fuel =>
        rw [show (runStep p T tryGet st (Step.select fuel)).1 =
              (selectLeaves p T tryGet fuel st).state from rfl]
        rw [selectLeaves_fastplay]
        exact hfp
      | process name infs =>
        rw [show (runStep p T tryGet st (Step.process name infs)).1 =
              (processInferences T name infs st).1 from rfl]
        rw [(processInferences_state T name infs st).2.1]
        exact hfp
      | play => exact maybePlayMove_fastplay_freqzero p T st hfreq hfp
    exact ih (runStep p T tryGet st s).1 hstep

theorem startNewGamesLoop_all_isSome {γ : Type} (supply : Nat → Option γ) (k : Nat)
    (games : List (Option γ)) (i : Nat)
    (hpre : ∀ j, j < i → ∀ h : j < games.length, (games[j]).isSome = true) :
    ((startNewGamesLoop supply k games i).all Option.isSome) = true := by
  revert hpre
  induction k, games, i using startNewGamesLoop.induct supply with
  | case1 k games i h g hget ih =>
    intro hpre
    rw [startNewGamesLoop, dif_pos h, hget]
    refine ih ?_
    intro j hj hl
    rcases Nat.lt_succ_iff_lt_or_eq.mp hj with hj' | rfl
    · exact hpre j hj' hl
    · rw [List.get_eq_getElem] at hget
      simp [hget]
  | case2 k games i h hget g hsup ih =>
    intro hpre
    rw [startNewGamesLoop, dif_pos h, hget, hsup]
    refine ih ?_
    intro j hj hl
    rcases Nat.lt_succ_iff_lt_or_eq.mp hj with hj' | rfl
    · rw [List.getElem_set_ne (Nat.ne_of_lt hj').symm]
      exact hpre j hj' (by simpa using hl)
    · rw [List.getElem_set_self]
      rfl
  | case3 k games i h hget hsup ih =>
    intro hpre
    rw [startNewGamesLoop, dif_pos h, hget, hsup]
    refine ih ?_
    intro j hj hl
    rw [List.getElem_dropLast, List.getElem_set_ne (Nat.ne_of_lt hj).symm]
    exact hpre j hj _
  | case4 k games i h =>
    intro hpre
    rw [startNewGamesLoop, dif_neg h]
    rw [List.all_eq_true]
    intro x hx
    rcases List.mem_iff_get.mp hx with ⟨⟨j, hj⟩, rfl⟩
    have hji : j < i := lt_of_lt_of_le hj (Nat.le_of_not_lt h)
    have := hpre j hji hj
    simpa [List.get_eq_getElem] using this

/-- Claim C1: every leaf queued as an `Inference` by `SelectLeaves` (via
`MaybeQueueInference`) gets exactly one `AddVirtualLoss` at queue time (the
`addVirtualLoss` events of a `SelectLeaves` trace are exactly the queued
inference leaves, in order, and the trace has no `revertVirtualLoss`), and
`ProcessInferences` applies exactly one matching `RevertVirtualLoss` per
inference (its trace's `revertVirtualLoss` events are exactly the processed
inference leaves and it adds no virtual loss); terminal leaves and cache hits
therefore receive no virtual loss. -/
theorem claim_C1 {τ : Type} (p : Params) (T : TreeOps τ)
    (tryGet : Nat → Nat → Nat → Bool) (fuel : Nat) (st : SGState τ)
    (name : String) (infs : List Inference) :
    vlossLeaves (selectLeaves p T tryGet fuel st).events =
      (selectLeaves p T tryGet fuel st).inferences.map Inference.leaf ∧
    revertLeaves (selectLeaves p T tryGet fuel st).events = [] ∧
    revertLeaves (processInferences T name infs st).2 = infs.map Inference.leaf ∧
    vlossLeaves (processInferences T name infs st).2 = [] :=
  ⟨(selectLeaves_vloss p T tryGet fuel st).1,
   (selectLeaves_vloss p T tryGet fuel st).2,
   (processInferences_events T name infs st).1,
   (processInferences_events T name infs st).2.1⟩

/-- Claim C3 counterexample: the selection loop is a do-while, so with
`root.N() = 5` already at `target_readouts = 5` a call still selects a leaf
and queues one inference, not zero. -/
theorem claim_C3_counterexample :
    metState.target_readouts ≤ flatTree.rootN metState.tree ∧
    (selectLeaves baseParams flatTree missCache 10 metState).numQueued = 1 :=
  ⟨by decide, rfl⟩

/-- Claim C3 (amended): the loop is a do-while, so the body runs once before
the condition `num_queued < num_virtual_losses && root.N() < target_readouts`
is checked; when `SelectLeaves` is called with `root.N()` already at or above
`target_readouts` (and the tree operations never decrease `root.N()`), at
most one iteration runs, so at most one inference is queued. -/
theorem claim_C3 {τ : Type} (p : Params) (T : TreeOps τ)
    (tryGet : Nat → Nat → Nat → Bool) (fuel : Nat) (st : SGState τ)
    (hend : ∀ t l v, T.rootN t ≤ T.rootN (T.incorporateEndGameResult t l v))
    (hres : ∀ t l, T.rootN t ≤ T.rootN (T.incorporateResults t l))
    (hvl : ∀ t l, T.rootN t ≤ T.rootN (T.addVirtualLoss t l))
    (hnoise : ∀ t, T.rootN t ≤ T.rootN (T.injectNoise t))
    (htar : st.target_readouts ≤ T.rootN st.tree) :
    (selectLeaves p T tryGet fuel st).numQueued ≤ 1 := by
  rw [selectLeaves]
  split
  · exact selectLeavesLoop_numQueued_le p T tryGet hend hres hvl fuel _ 0
      (le_trans htar (hnoise st.tree))
  · exact selectLeavesLoop_numQueued_le p T tryGet hend hres hvl fuel st 0 htar

/-- Witness for claim C3's amended theorem at a concrete instance. -/
theorem claim_C3_witness :
    metState.target_readouts ≤ flatTree.rootN metState.tree ∧
    (selectLeaves baseParams flatTree missCache 10 metState).numQueued ≤ 1 :=
  ⟨by decide,
   claim_C3 baseParams flatTree missCache 10 metState
     (fun _ _ _ => Nat.le_refl _) (fun _ _ => Nat.le_refl _)
     (fun _ _ => Nat.le_refl _) (fun _ => Nat.le_refl _) (by decide)⟩

/-- Claim C9: after `StartNewGames` returns, every remaining slot of the
`selfplay_games_` array is non-null: a null slot is either refilled or
removed by the swap-with-back and pop, and the moved-in element is
re-examined, so the rest of the cycle never sees a null game. -/
theorem claim_C9 {γ : Type} (supply : Nat → Option γ) (games : List (Option γ)) :
    ((startNewGames supply games).all Option.isSome) = true :=
  startNewGamesLoop_all_isSome supply 0 games 0
    (fun j hj _ => absurd hj (Nat.not_lt_zero j))

/-- Claim C10: whenever the selected leaf is the tree's root (and is not
terminal), the selection loop terminates immediately after handling it,
whatever the fast-play flag is: the loop result is exactly the one-iteration
result, with fast play controlling only whether the noise flag is armed. -/
theorem claim_C10 {τ : Type} (p : Params) (T : TreeOps τ)
    (tryGet : Nat → Nat → Nat → Bool) (fuel : Nat) (st : SGState τ) (nq : Nat)
    (leaf : Nat)
    (hsel : T.selectLeaf st.tree p.options.allow_pass = some leaf)
    (hterm : (T.leafGameOver st.tree leaf || T.leafAtMoveLimit st.tree leaf) = false)
    (hroot : ∀ t, T.isRoot t leaf = true) :
    selectLeavesLoop p T tryGet (fuel + 1) st nq =
      { state :=
          (if st.fastplay = false
           then { st with tree := (maybeQueueInference p T tryGet st.tree leaf).tree,
                          inject_noise_before_next_read := true }
           else { st with tree := (maybeQueueInference p T tryGet st.tree leaf).tree }),
        numQueued := nq + (if (maybeQueueInference p T tryGet st.tree leaf).queued then 1 else 0),
        inferences := (maybeQueueInference p T tryGet st.tree leaf).inferences,
        events := (maybeQueueInference p T tryGet st.tree leaf).events } := by
  rw [selectLeavesLoop]
  simp only [hsel, hterm, hroot, Bool.false_eq_true, if_false, if_true]

/-- Witness for claim C10 at a concrete instance where the root is selected
(one inference queued, loop stops, noise flag armed). -/
theorem claim_C10_witness :
    selectLeavesLoop baseParams rootTree missCache 10 shortState 0 =
      { state := { shortState with inject_noise_before_next_read := true },
        numQueued := 1,
        inferences := [{ cache_key := 7, input_sym := 3, leaf := 0, position_history := [0] }],
        events := [Event.addVirtualLoss 0] } :=
  (claim_C10 baseParams rootTree missCache 9 shortState 0 0 rfl rfl (fun _ => rfl)).trans
    (by rfl)

/-- Claim C2: Dirichlet noise is injected at most once per move: each
`SelectLeaves` call injects exactly when the `inject_noise_before_next_read`
flag was armed at entry (consuming and clearing it at the start); the flag
starts false, so injection happens only after some call selected the root
itself or a move was played; across a move's select/process phases with the
root never selected the total number of injections is bounded by the one
pre-armed noise; during a fast-play move's search the flag is never armed and
no noise is injected; and when a move is played with the game live the flag
is re-armed iff the next move is not a fast play. -/
theorem claim_C2 {τ : Type} (p : Params) (T : TreeOps τ)
    (tryGet : Nat → Nat → Nat → Bool) :
    (∀ fuel st, countInject (selectLeaves p T tryGet fuel st).events =
        (if st.inject_noise_before_next_read then 1 else 0)) ∧
    (∀ t : τ, (initState p t).inject_noise_before_next_read = false ∧
        (initState p t).fastplay = false) ∧
    ((∀ t l, T.isRoot t l = false) → ∀ (steps : List Step) (st : SGState τ),
        (∀ s ∈ steps, s ≠ Step.play) →
        countInject (runSteps p T tryGet steps st).2 ≤
          (if st.inject_noise_before_next_read then 1 else 0)) ∧
    (∀ (steps : List Step) (st : SGState τ), (∀ s ∈ steps, s ≠ Step.play) →
        st.fastplay = true → st.inject_noise_before_next_read = false →
        countInject (runSteps p T tryGet steps st).2 = 0 ∧
        (runSteps p T tryGet steps st).1.inject_noise_before_next_read = false) ∧
    (∀ st : SGState τ, ¬ T.rootN st.tree < st.target_readouts →
        (maybePlayMove p T st).state.game.game_over = false →
        (maybePlayMove p T st).state.inject_noise_before_next_read =
          !(maybePlayMove p T st).state.fastplay) := by
  refine ⟨selectLeaves_countInject p T tryGet, fun t => ⟨rfl, rfl⟩, ?_, ?_, ?_⟩
  · intro hroot steps st hnp
    exact le_trans (Nat.le_add_right _ _) (runSteps_inject_bound p T tryGet hroot steps st hnp)
  · intro steps st hnp hfp hinj
    have h := runSteps_fastplay_inject p T tryGet steps st hnp hfp hinj
    exact ⟨h.2.2, h.2.1⟩
  · intro st hN hover
    rw [(maybePlayMove_live p T st hN hover).2]

/-- Witness for claim C2 at concrete instances: an armed flag yields at most
one injection over a select/process run, a fast-play move yields none, and a
played move arms the flag iff the next move is not fast. -/
theorem claim_C2_witness :
    countInject (runSteps baseParams flatTree missCache
        [Step.select 3, Step.process "modA" [], Step.select 3] twoModelState).2 ≤
      (if twoModelState.inject_noise_before_next_read then 1 else 0) ∧
    countInject (runSteps baseParams flatTree missCache [Step.select 3] fastState).2 = 0 ∧
    (maybePlayMove baseParams flatTree metState).state.inject_noise_before_next_read =
      !(maybePlayMove baseParams flatTree metState).state.fastplay :=
  ⟨(claim_C2 baseParams flatTree missCache).2.2.1 (fun _ _ => rfl)
     [Step.select 3, Step.process "modA" [], Step.select 3] twoModelState (by decide),
   ((claim_C2 baseParams flatTree missCache).2.2.2.1 [Step.select 3] fastState
     (by decide) rfl rfl).1,
   (claim_C2 baseParams flatTree missCache).2.2.2.2 metState (by decide) (by decide)⟩

/-- Claim C4: `MaybePlayMove` returns false and leaves the whole state
untouched when `root.N() < target_readouts`; when it fires and the game
remains live after the move, the new watermark is
`root.N() + fastplay_readouts` if the next move is a fast play and
`root.N() + num_readouts` otherwise. -/
theorem claim_C4 {τ : Type} (p : Params) (T : TreeOps τ) (st : SGState τ) :
    (T.rootN st.tree < st.target_readouts →
      maybePlayMove p T st = { played := false, state := st, events := [] }) ∧
    ((∀ t, T.rootN (T.clearSubtrees t) = T.rootN t) →
      ¬ T.rootN st.tree < st.target_readouts →
      (maybePlayMove p T st).state.game.game_over = false →
      (maybePlayMove p T st).played = true ∧
      (maybePlayMove p T st).state.target_readouts =
        T.rootN (maybePlayMove p T st).state.tree +
          (if (maybePlayMove p T st).state.fastplay then p.options.fastplay_readouts
           else p.options.num_readouts)) := by
  constructor
  · intro h
    exact maybePlayMove_not_fired p T st h
  · intro hcs hN hover
    have h := maybePlayMove_live p T st hN hover
    refine ⟨h.1, ?_⟩
    rw [h.2]
    by_cases hc : (shouldFastplay p (resignOrPlay p T st).1.rndIdx).1 = false ∧
        0 < p.options.fastplay_frequency
    · simp only [if_pos hc, hcs]
    · simp only [if_neg hc]

/-- Witness for claim C4 at concrete instances: a call short of the watermark
is a no-op returning false; a fired call that keeps the game live resets the
watermark from the new root. -/
theorem claim_C4_witness :
    maybePlayMove baseParams flatTree shortState =
      { played := false, state := shortState, events := [] } ∧
    ((maybePlayMove baseParams flatTree metState).played = true ∧
     (maybePlayMove baseParams flatTree metState).state.target_readouts =
       flatTree.rootN (maybePlayMove baseParams flatTree metState).state.tree +
         (if (maybePlayMove baseParams flatTree metState).state.fastplay then
            baseParams.options.fastplay_readouts
          else baseParams.options.num_readouts)) :=
  ⟨(claim_C4 baseParams flatTree shortState).1 (by decide),
   (claim_C4 baseParams flatTree metState).2 (fun _ => rfl) (by decide) (by decide)⟩

/-- Claim C5: move 0 is never a fast play (`fastplay_` is initialized false
and neither `SelectLeaves` nor `ProcessInferences` changes it; it is only
re-sampled after a move is played); with `fastplay_frequency = 0` no move is
ever a fast play; with `fastplay_frequency = 1` (and `rnd_()` drawing in
`[0,1)`) every move after move 0 is a fast play. -/
theorem claim_C5 {τ : Type} (p : Params) (T : TreeOps τ)
    (tryGet : Nat → Nat → Nat → Bool) :
    (∀ t : τ, (initState p t).fastplay = false) ∧
    (∀ fuel st, (selectLeaves p T tryGet fuel st).state.fastplay = st.fastplay) ∧
    (∀ name infs (st : SGState τ),
        (processInferences T name infs st).1.fastplay = st.fastplay) ∧
    (p.options.fastplay_frequency = 0 → ∀ steps (st : SGState τ), st.fastplay = false →
        (runSteps p T tryGet steps st).1.fastplay = false) ∧
    (p.options.fastplay_frequency = 1 → (∀ k, p.rnd k < 1) →
        ∀ st : SGState τ, ¬ T.rootN st.tree < st.target_readouts →
        (maybePlayMove p T st).state.game.game_over = false →
        (maybePlayMove p T st).state.fastplay = true) := by
  refine ⟨fun t => rfl, selectLeaves_fastplay p T tryGet,
          fun name infs st => (processInferences_state T name infs st).2.1, ?_, ?_⟩
  · intro hfreq steps st hfp
    refine runSteps_fastplay_freqzero p T tryGet ?_ steps st hfp
    rw [hfreq]
    exact lt_irrefl 0
  · intro hfreq hrnd st hN hover
    rw [(maybePlayMove_live p T st hN hover).2]
    show (shouldFastplay p (resignOrPlay p T st).1.rndIdx).1 = true
    simp [shouldFastplay, hfreq, hrnd]

/-- Witness for claim C5 at concrete instances: with frequency 0 the flag
stays false across a full cycle including a played move; with frequency 1 a
played move that keeps the game live samples fast play true. -/
theorem claim_C5_witness :
    (runSteps baseParams flatTree missCache [Step.select 2, Step.play] metState).1.fastplay
      = false ∧
    (maybePlayMove oscParams flatTree metState).state.fastplay = true :=
  ⟨(claim_C5 baseParams flatTree missCache).2.2.2.1 rfl [Step.select 2, Step.play]
     metState rfl,
   (claim_C5 oscParams flatTree missCache).2.2.2.2 rfl (fun _ => show (0 : Rat) < 1 by decide)
     metState (by decide) (by decide)⟩

/-- Claim C6: contrary to the `cache_shards` flag's own documentation ("The
number of shards is clamped such that it's always <= parallel_games"), the
cache construction in `Selfplayer::Run` never clamps: with the default flags
`cache_shards = 8`, `concurrent_games_per_thread = 1`, `selfplay_threads = 3`
and `cache_size_mb = 8`, the cache is built with 8 shards although
`parallel_games_total = 3`. -/
theorem claim_C6_bug :
    cacheShardCount (makeInferenceCache (fun mb => 32768 * mb) 8 8) = 8 ∧
    parallelGamesTotal 1 3 = 3 ∧
    ¬ cacheShardCount (makeInferenceCache (fun mb => 32768 * mb) 8 8) ≤
        parallelGamesTotal 1 3 := by
  decide

/-- Claim C7 counterexample: the dedup in `ProcessInferences` only compares
against the back of `models_used_`, so with `models_used = [modA, modB]` a
call with model name `modA` appends again and `modA` occurs twice. -/
theorem claim_C7_counterexample :
    (processInferences flatTree "modA" [] twoModelState).1.models_used =
      ["modA", "modB", "modA"] ∧
    ((processInferences flatTree "modA" [] twoModelState).1.models_used).count "modA" = 2 := by
  exact ⟨rfl, rfl⟩

/-- Claim C7 (amended): a `ProcessInferences` call with a non-empty
`model_name` leaves `models_used` ending with that name, and the
deduplication is adjacent-only: no two consecutive entries are ever equal
(but a name may reappear after a different model intervened); a call with an
empty `model_name` leaves `models_used` unchanged. -/
theorem claim_C7 {τ : Type} (T : TreeOps τ) (name : String)
    (infs : List Inference) (st : SGState τ) :
    (name = "" → (processInferences T name infs st).1.models_used = st.models_used) ∧
    (name ≠ "" →
      ((processInferences T name infs st).1.models_used).getLast? = some name) ∧
    (name ≠ "" → List.Chain' (· ≠ ·) st.models_used →
      List.Chain' (· ≠ ·) (processInferences T name infs st).1.models_used) := by
  refine ⟨?_, ?_, ?_⟩
  · intro h
    simp [processInferences, h]
  · intro h
    show (if name = "" then st.models_used
          else match st.models_used.getLast? with
               | none => st.models_used ++ [name]
               | some back =>
                 if name = back then st.models_used
                 else st.models_used ++ [name]).getLast? = some name
    rw [if_neg h]
    cases hlast : st.models_used.getLast? with
    | none => exact List.getLast?_concat _
    | some back =>
      show (if name = back then st.models_used
            else st.models_used ++ [name]).getLast? = some name
      by_cases hb : name = back
      · rw [if_pos hb, hlast, hb]
      · rw [if_neg hb]
        exact List.getLast?_concat _
  · intro h hch
    show List.Chain' (· ≠ ·)
        (if name = "" then st.models_used
         else match st.models_used.getLast? with
              | none => st.models_used ++ [name]
              | some back =>
                if name = back then st.models_used
                else st.models_used ++ [name])
    rw [if_neg h]
    cases hlast : st.models_used.getLast? with
    | none =>
      rw [List.getLast?_eq_none_iff.mp hlast]
      exact List.chain'_singleton name
    | some back =>
      show List.Chain' (· ≠ ·)
          (if name = back then st.models_used else st.models_used ++ [name])
      by_cases hb : name = back
      · rw [if_pos hb]
        exact hch
      · rw [if_neg hb]
        refine List.chain'_append.mpr ⟨hch, List.chain'_singleton name, ?_⟩
        intro x hx y hy
        rw [hlast] at hx
        rw [List.head?_cons] at hy
        cases hx
        cases hy
        exact fun hcon => hb hcon.symm

/-- Witness for claim C7's amended theorem at concrete instances. -/
theorem claim_C7_witness :
    (processInferences flatTree "" [] twoModelState).1.models_used =
      twoModelState.models_used ∧
    ((processInferences flatTree "modA" [] twoModelState).1.models_used).getLast? =
      some "modA" ∧
    List.Chain' (· ≠ ·) (processInferences flatTree "modA" [] twoModelState).1.models_used :=
  ⟨(claim_C7 flatTree "" [] twoModelState).1 rfl,
   (claim_C7 flatTree "modA" [] twoModelState).2.1 (by decide),
   (claim_C7 flatTree "modA" [] twoModelState).2.2 (by decide)
     (List.chain'_cons.mpr ⟨by decide, List.chain'_singleton "modB"⟩)⟩

/-- Claim C8: when `MaybePlayMove` fires and the resign predicate holds, the
game is marked over by resignation and nothing else happens: no move is
picked, appended or played, no visits are reshaped, no move is marked
trainable, the tree and the move history are untouched, and the trace is the
single resignation event. -/
theorem claim_C8 {τ : Type} (p : Params) (T : TreeOps τ) (st : SGState τ)
    (hN : ¬ T.rootN st.tree < st.target_readouts)
    (hres : shouldResign p T st = true) :
    (maybePlayMove p T st).played = true ∧
    (maybePlayMove p T st).state.game.moves = st.game.moves ∧
    (maybePlayMove p T st).state.game.game_over = true ∧
    (maybePlayMove p T st).state.game.over_reason = some GameOverReason.resign ∧
    (maybePlayMove p T st).state.tree = st.tree ∧
    (maybePlayMove p T st).state.target_readouts = st.target_readouts ∧
    (maybePlayMove p T st).events = [Event.setGameOverResign] := by
  have h1 := resignOrPlay_of_resign p T st hres
  rw [maybePlayMove, if_neg hN]
  rw [if_neg (by rw [h1.1]; simp)]
  refine ⟨rfl, ?_, ?_, ?_, ?_, ?_, ?_⟩
  · rw [h1.1]
  · rw [h1.1]
  · rw [h1.1]
  · rw [h1.1]
  · rw [h1.1]
  · rw [h1.2]

/-- Witness for claim C8 at a concrete lost position with resignation
enabled. -/
theorem claim_C8_witness :
    (maybePlayMove resignParams lostTree metState).played = true ∧
    (maybePlayMove resignParams lostTree metState).state.game.moves =
      metState.game.moves ∧
    (maybePlayMove resignParams lostTree metState).state.game.game_over = true ∧
    (maybePlayMove resignParams lostTree metState).state.game.over_reason =
      some GameOverReason.resign ∧
    (maybePlayMove resignParams lostTree metState).state.tree = metState.tree ∧
    (maybePlayMove resignParams lostTree metState).state.target_readouts =
      metState.target_readouts ∧
    (maybePlayMove resignParams lostTree metState).events = [Event.setGameOverResign] :=
  claim_C8 resignParams lostTree metState (by decide) (by decide)

end Minigo
